import Mathlib

/-!
Verification of the hypershell server gateway (`bin/server.js`).

The embedding models text as `List Char` so that every definition is
executable inside the kernel.  External collaborators (the HypercoreId
codec, the tiny-configs line parser, the Protomux pairing mechanism, the
graceful-goodbye shutdown registry and the protocol handler classes that
live outside the given sources) are modelled at their documented
interface; everything else is translated directly from `bin/server.js`.
-/

/-- Text, modelled as a list of characters so all operations compute. -/
abbrev Str := List Char

/-- Splits a character list at every occurrence of the separator. -/
def splitOnChar (sep : Char) : Str → List Str
  | [] => [[]]
  | c :: rest =>
    match splitOnChar sep rest with
    | [] => if c = sep then [[], []] else [[c]]
    | f :: fs => if c = sep then [] :: f :: fs else (c :: f) :: fs

/-- Whitespace recognizer used when trimming a line. -/
def isWS (c : Char) : Bool := c = ' ' || c = '\t' || c = '\r' || c = '\n'

/-- Removes leading and trailing whitespace from a line. -/
def trimStr (s : Str) : Str := ((s.dropWhile isWS).reverse.dropWhile isWS).reverse

/-- A public key, as its sequence of bytes; `remotePublicKey.equals(publicKey)`
in the source is exact byte equality. -/
abbrev Key := List Nat

/-- The in-memory firewall state `allowed` of `cmd`: either the sentinel
`true` (firewall disabled, allow everyone) or the parsed list of
authorized public keys. -/
inductive Allowed where
  | all : Allowed
  | keys : List Key → Allowed
deriving DecidableEq

/-- Scan loop of `onFirewall` over the authorized list: returns the pair
(block?, log line), where `block? = false` means the peer is allowed, and
the log line is what the matching branch prints.  `encode` stands for the
external `HypercoreId.encode`. -/
def fwScan (encode : Key → Str) (remotePublicKey : Key) : List Key → Bool × Str
  | [] => (true, "Firewall denied: ".toList ++ encode remotePublicKey)
  | publicKey :: rest =>
    if remotePublicKey = publicKey then
      (false, "Firewall allowed: ".toList ++ encode remotePublicKey)
    else fwScan encode remotePublicKey rest

/-- The `onFirewall` callback of `cmd` (bin/server.js lines 76-91): if
`allowed === true` the peer is allowed immediately, otherwise the list is
scanned in order by exact equality.  Returns (block?, log line). -/
def onFirewall (encode : Key → Str) (allowed : Allowed) (remotePublicKey : Key) :
    Bool × Str :=
  match allowed with
  | .all => (false, "Firewall allowed: ".toList ++ encode remotePublicKey)
  | .keys l => fwScan encode remotePublicKey l

/-- Modelled from the spec: the external `tiny-configs` `parse` used by
`readAuthorizedPeers` — "UTF-8 text, one record per line, whitespace-separated
`<public key> <name>` pairs, `#`-prefixed lines ignored as comments"; the
records are the non-comment, non-blank trimmed lines. -/
def configRecords (text : Str) : List Str :=
  ((splitOnChar '\n' text).map trimStr).filter
    (fun l => !l.isEmpty && !(l.headD ' ' == '#'))

/-- First space-separated column of a record: the public-key field `v[0]`. -/
def firstField (l : Str) : Str := l.takeWhile (fun c => !(c == ' '))

/-- The public-key columns of the non-comment, non-blank lines of the file. -/
def keyFields (text : Str) : List Str := (configRecords text).map firstField

/-- Maps the external `HypercoreId.decode` over every key column;
`none` models the decoder throwing on the first malformed key, which
aborts the whole parse (`.map(v => HypercoreId.decode(v[0]))`). -/
def decodeAll (decode : Str → Option Key) : List Str → Option (List Key)
  | [] => some []
  | f :: fs =>
    match decode f with
    | none => none
    | some k => Option.map (fun ks => k :: ks) (decodeAll decode fs)

/-- `readAuthorizedPeers` applied to a Buffer (the live-reload path of the
file watcher): no filesystem access happens, the buffer is parsed and a
decode failure propagates as a thrown error (`none`). -/
def readAuthorizedPeersBuf (decode : Str → Option Key) (buf : Str) :
    Option (List Key) :=
  decodeAll decode (keyFields buf)

/-- The file-watch callback `allowed = readAuthorizedPeers(buf)`
(bin/server.js lines 49-51): the right-hand side is evaluated fully before
the assignment, so a decode failure throws out of the callback before any
assignment and the previous in-memory list stays in place. -/
def watchUpdate (decode : Str → Option Key) (old : List Key) (buf : Str) :
    List Key :=
  match readAuthorizedPeersBuf decode buf with
  | some ks => ks
  | none => old

/-- The filesystem visible to the process: path contents, `none` if absent. -/
def FS := Str → Option Str

/-- Header written when the firewall file is created
(`fs.writeFileSync(filename, '# <public key> <name>\n', { flag: 'wx' })`). -/
def headerLine : Str := "# <public key> <name>\n".toList

/-- The creation step of `readAuthorizedPeers` for a string filename: when
the file does not exist it is created with the header comment, otherwise
the filesystem is untouched. -/
def ensureFirewallFile (fs : FS) (filename : Str) : FS :=
  match fs filename with
  | some _ => fs
  | none => fun p => if p = filename then some headerLine else fs p

/-- `readAuthorizedPeers` with a string filename (the startup path,
bin/server.js lines 147-161): create-if-absent, then read and parse.
Returns the filesystem afterwards and `some keys` on success, `some []`
when the read hits ENOENT, `none` when a key fails to decode (the thrown
error is rethrown because its code is not ENOENT). -/
def readAuthorizedPeersFile (decode : Str → Option Key) (fs : FS)
    (filename : Str) : FS × Option (List Key) :=
  (ensureFirewallFile fs filename,
    match ensureFirewallFile fs filename filename with
    | none => some []
    | some content => decodeAll decode (keyFields content))

/-- Observable outcome of the firewall-setup block of `cmd`
(bin/server.js lines 46-53). -/
structure FirewallSetup where
  allowed : Allowed
  fs : FS
  storeRead : Bool
  watcherInstalled : Bool
  unwatchRegistered : Bool

/-- The firewall-setup block of `cmd`: with `--disable-firewall` the
sentinel is installed and the whole `if (!allowed)` block is skipped;
otherwise the store is read (fatal on parse error, `none`), the watcher
installed and its unwatch registered with goodbye at tier 3. -/
def setupFirewall (decode : Str → Option Key) (disableFirewall : Bool)
    (fs : FS) (firewallPath : Str) : Option FirewallSetup :=
  if disableFirewall then
    some { allowed := .all, fs := fs, storeRead := false,
           watcherInstalled := false, unwatchRegistered := false }
  else
    match readAuthorizedPeersFile decode fs firewallPath with
    | (fs2, some ks) =>
      some { allowed := .keys ks, fs := fs2, storeRead := true,
             watcherInstalled := true, unwatchRegistered := true }
    | (_, none) => none

/-- Identity of a teardown action registered with graceful-goodbye. -/
inductive GId where
  | socket : Nat → GId
  | serverClose : GId
  | nodeDestroy : GId
  | unwatchFirewall : GId
deriving DecidableEq

/-- A goodbye registration: an action identity under a priority tier. -/
structure GReg where
  id : GId
  priority : Nat
deriving DecidableEq

/-- An event of the shutdown trace: an action starts, or completes. -/
inductive GEvent where
  | start : GId → GEvent
  | finish : GId → GEvent
deriving DecidableEq

/-- Events of one tier: all its actions start (concurrently, in
registration order), then all of them complete before the tier ends. -/
def tierEvents (regs : List GReg) (p : Nat) : List GEvent :=
  ((regs.filter (fun r => r.priority == p)).map (fun r => GEvent.start r.id)) ++
  ((regs.filter (fun r => r.priority == p)).map (fun r => GEvent.finish r.id))

/-- Modelled from the spec: the external graceful-goodbye registry "runs
teardown actions in ascending priority order — lower-numbered tiers
complete fully (including any asynchronous wait they perform) before the
next tier begins"; the trace records every start and completion. -/
def goodbyeTrace (regs : List GReg) : List GEvent :=
  (List.insertionSort (· ≤ ·) ((regs.map (fun r => r.priority)).dedup)).flatMap
    (tierEvents regs)

/-- Event `a` happens strictly before event `b` in the trace: the trace
splits at a point with every occurrence of `a` before it and every
occurrence of `b` after it. -/
def strictlyBefore (a b : GEvent) (tr : List GEvent) : Prop :=
  ∃ pre post, tr = pre ++ post ∧ a ∈ pre ∧ a ∉ post ∧ b ∈ post ∧ b ∉ pre

/-- Goodbye registrations made by `cmd` at startup, in program order:
the firewall unwatch at tier 3 (skipped with `--disable-firewall`), the
node destroy at tier 3, the server close at tier 2. -/
def startupRegs (disableFirewall : Bool) : List GReg :=
  (if disableFirewall then [] else [{ id := .unwatchFirewall, priority := 3 }]) ++
  [{ id := .nodeDestroy, priority := 3 }, { id := .serverClose, priority := 2 }]

/-- One tier-1 registration per accepted connection
(`goodbye(() => { socket.end(); return waitForSocketTermination(socket) }, 1)`). -/
def socketRegs (n : Nat) : List GReg :=
  (List.range n).map (fun i => { id := .socket i, priority := 1 })

/-- The full registry with `n` live connections. -/
def serverRegs (disableFirewall : Bool) (n : Nat) : List GReg :=
  startupRegs disableFirewall ++ socketRegs n

/-- Connection-lifecycle events that mutate the goodbye registry. -/
inductive LEvent where
  | accept : Nat → LEvent
  | socketClosed : Nat → LEvent
deriving DecidableEq

/-- Effect of one lifecycle event on the registry: `onconnection` registers
the socket action at tier 1 on accept, and `socket.once('close', () =>
unregisterSocket())` removes it the instant the socket closes. -/
def lifecycleStep (regs : List GReg) : LEvent → List GReg
  | .accept i => regs ++ [{ id := .socket i, priority := 1 }]
  | .socketClosed i => regs.filter (fun r => !(r.id == GId.socket i))

/-- The registry after a sequence of lifecycle events. -/
def regsAfter (init : List GReg) (es : List LEvent) : List GReg :=
  es.foldl lifecycleStep init

/-- The enabled-protocol default `PROTOCOLS = ['shell', 'upload',
'download', 'tunnel']`. -/
def PROTOCOLS : List Str :=
  ["shell".toList, "upload".toList, "download".toList, "tunnel".toList]

/-- Wire name each configuration name is bound under on the multiplexer. -/
def muxName (name : Str) : Str :=
  if name = "shell".toList then "hypershell".toList
  else if name = "upload".toList then "hypershell-upload".toList
  else if name = "download".toList then "hypershell-download".toList
  else if name = "tunnel".toList then "hypershell-tunnel-local".toList
  else name

/-- The wire-protocol names `onconnection` pairs on the multiplexer
(bin/server.js lines 114-144): one `mux.pair` per enabled name, guarded by
`protocols.includes(...)`, in code order. -/
def boundBindings (protocols : List Str) : List Str :=
  (if "shell".toList ∈ protocols then ["hypershell".toList] else []) ++
  (if "upload".toList ∈ protocols then ["hypershell-upload".toList] else []) ++
  (if "download".toList ∈ protocols then ["hypershell-download".toList] else []) ++
  (if "tunnel".toList ∈ protocols then ["hypershell-tunnel-local".toList] else [])

/-- Modelled from the spec: the external Protomux fires a pairing callback
for a wire name the remote peer negotiates only if a binding for that name
was declared; handlers are instantiated exactly by fired callbacks. -/
def instantiatedHandlers (protocols : List Str) (attempted : List Str) :
    List Str :=
  attempted.filter (fun a => decide (a ∈ boundBindings protocols))

/-- Modelled from the spec: a protocol handler (the ShellServer /
UploadServer / DownloadServer / LocalTunnelServer classes, outside the
given sources) exposes a channel handle that is absent when negotiation
failed to produce a usable session. -/
structure Handler where
  channel : Option Nat

/-- Dispatcher action taken inside one `mux.pair` callback. -/
inductive DAction where
  | instantiate
  | openSession
deriving DecidableEq

/-- Body of each `mux.pair` callback: construct the handler once, then
`if (!handler.channel) return` else call `handler.open()` once. -/
def pairCallbackActions (h : Handler) : List DAction :=
  [DAction.instantiate] ++
    (match h.channel with
     | none => []
     | some _ => [DAction.openSession])

/-- The banner printed after `server.listen` (bin/server.js lines 67-73).
The source compares `protocols === PROTOCOLS`, JavaScript reference
equality, which holds exactly when no `--protocol` option was supplied
(`options.protocol || PROTOCOLS` returned the default array itself);
an explicitly supplied list is always a fresh array. -/
def listenBanner (protocolOpt : Option (List Str)) (pubKeyEnc : Str) :
    List Str :=
  match protocolOpt with
  | none =>
    ["To connect to this shell, on another computer run:".toList,
     "hypershell ".toList ++ pubKeyEnc]
  | some _ =>
    ["Running server with restricted protocols".toList,
     "Server key: ".toList ++ pubKeyEnc]

/-- The protocol list actually served: `options.protocol || PROTOCOLS`. -/
def selectedProtocols (protocolOpt : Option (List Str)) : List Str :=
  protocolOpt.getD PROTOCOLS

/-- Scanning the list finds a member: the loop returns allow with the
"Firewall allowed" log line whenever the remote key is in the list. -/
theorem fwScan_mem (encode : Key → Str) (p : Key) (l : List Key) (h : p ∈ l) :
    fwScan encode p l = (false, "Firewall allowed: ".toList ++ encode p) := by
  induction l with
  | nil => cases h
  | cons k rest ih =>
    by_cases hk : p = k
    · simp [fwScan, hk]
    · rcases List.mem_cons.1 h with h1 | h2
      · exact absurd h1 hk
      · simp [fwScan, hk, ih h2]

/-- Scanning the list past every element denies: the loop returns deny with
the "Firewall denied" log line when the remote key matches no element. -/
theorem fwScan_not_mem (encode : Key → Str) (p : Key) (l : List Key)
    (h : p ∉ l) :
    fwScan encode p l = (true, "Firewall denied: ".toList ++ encode p) := by
  induction l with
  | nil => rfl
  | cons k rest ih =>
    have hk : ¬ p = k := fun e => h (e ▸ List.mem_cons_self k rest)
    have hrest : p ∉ rest := fun m => h (List.mem_cons_of_mem k m)
    simp [fwScan, hk, ih hrest]

/-- Example encoder standing in for HypercoreId.encode in concrete runs. -/
def encExample : Key → Str :=
  fun k => 'k' :: k.map (fun b => Char.ofNat (97 + b % 26))

/-- C1: with firewall enforcement disabled the decision is allow for every
remote key; with enforcement enabled the authorized list is scanned in
order by exact byte equality and the decision is allow exactly when some
element equals the remote key, deny otherwise. -/
theorem C1_firewall_decision (encode : Key → Str) (p : Key) (l : List Key) :
    (onFirewall encode .all p).1 = false ∧
    ((onFirewall encode (.keys l) p).1 = false ↔ p ∈ l) := by
  refine ⟨rfl, ?_, ?_⟩
  · intro hfalse
    by_contra hmem
    have := fwScan_not_mem encode p l hmem
    rw [show onFirewall encode (.keys l) p = fwScan encode p l from rfl, this]
      at hfalse
    cases hfalse
  · intro hmem
    show (fwScan encode p l).1 = false
    rw [fwScan_mem encode p l hmem]

/-- Witness for C1 at a concrete key and singleton authorized list. -/
theorem C1_firewall_decision_witness :
    (onFirewall encExample .all [5]).1 = false ∧
    ((onFirewall encExample (.keys [[5]]) [5]).1 = false ↔ [5] ∈ [[5]]) :=
  C1_firewall_decision encExample [5] [[5]]

/-- C8 counterexample: the allow decision of a disabled-firewall run is NOT
logged distinctly from a positive-match allow — for the same remote key the
two branches produce the identical observable pair (decision, log line), so
the log cannot distinguish them. -/
theorem C8_counterexample :
    onFirewall encExample .all [5] = onFirewall encExample (.keys [[5]]) [5] := by
  decide

/-- C8 (amended): with firewall enforcement disabled every peer is allowed
and the allow is logged with the peer's encoded key in the same
"Firewall allowed" format that a positive match produces — the two allows
are not distinguishable in the log. -/
theorem C8_amended_disabled_allow_log (encode : Key → Str) (p : Key)
    (l : List Key) (h : p ∈ l) :
    (onFirewall encode .all p).1 = false ∧
    (onFirewall encode .all p).2 = "Firewall allowed: ".toList ++ encode p ∧
    (onFirewall encode .all p).2 = (onFirewall encode (.keys l) p).2 := by
  refine ⟨rfl, rfl, ?_⟩
  show _ = (fwScan encode p l).2
  rw [fwScan_mem encode p l h]
  rfl

/-- Witness for the amended C8 at a concrete key. -/
theorem C8_amended_disabled_allow_log_witness :
    (onFirewall encExample .all [5]).1 = false ∧
    (onFirewall encExample .all [5]).2 =
      "Firewall allowed: ".toList ++ encExample [5] ∧
    (onFirewall encExample .all [5]).2 =
      (onFirewall encExample (.keys [[5]]) [5]).2 :=
  C8_amended_disabled_allow_log encExample [5] [[5]] (by decide)

/-- C7: each successful negotiation runs one pair callback, which
instantiates exactly one handler; if the handler's channel handle is
absent the dispatcher takes no further action, otherwise it calls open()
exactly once. -/
theorem C7_dispatch_once (h : Handler) :
    (pairCallbackActions h).count DAction.instantiate = 1 ∧
    ((pairCallbackActions h).count DAction.openSession =
      if h.channel.isSome then 1 else 0) ∧
    (h.channel = none → pairCallbackActions h = [DAction.instantiate]) := by
  rcases h with ⟨ch⟩
  cases ch with
  | none => exact ⟨rfl, rfl, fun _ => rfl⟩
  | some k =>
    refine ⟨rfl, rfl, fun h0 => ?_⟩
    exact Option.noConfusion h0

/-- Witness for C7 on a handler with no channel handle. -/
theorem C7_dispatch_once_witness :
    (pairCallbackActions { channel := none }).count DAction.instantiate = 1 ∧
    pairCallbackActions { channel := none } = [DAction.instantiate] :=
  ⟨(C7_dispatch_once { channel := none }).1,
   (C7_dispatch_once { channel := none }).2.2 rfl⟩

/-- Decoding the key columns fails exactly when some column's key fails to
decode (the JS `.map` throws at the first bad key). -/
theorem decodeAll_eq_none_iff (decode : Str → Option Key) (fs : List Str) :
    decodeAll decode fs = none ↔ ∃ f ∈ fs, decode f = none := by
  induction fs with
  | nil => simp [decodeAll]
  | cons f rest ih =>
    cases hf : decode f with
    | none =>
      constructor
      · intro _
        exact ⟨f, List.mem_cons_self f rest, hf⟩
      · intro _
        simp [decodeAll, hf]
    | some k =>
      simp only [decodeAll, hf, Option.map_eq_none', ih, List.mem_cons]
      constructor
      · rintro ⟨g, hg, hdg⟩
        exact ⟨g, Or.inr hg, hdg⟩
      · rintro ⟨g, hg | hg, hdg⟩
        · rw [hg] at hdg
          rw [hdg] at hf
          cases hf
        · exact ⟨g, hg, hdg⟩

/-- When every key column decodes, the result is exactly the list of
decoded keys of the records, in order. -/
theorem decodeAll_eq_filterMap (decode : Str → Option Key) (fs : List Str)
    (h : ∀ f ∈ fs, (decode f).isSome) :
    decodeAll decode fs = some (fs.filterMap decode) := by
  induction fs with
  | nil => rfl
  | cons f rest ih =>
    have hf := h f (List.mem_cons_self f rest)
    cases hd : decode f with
    | none =>
      rw [hd] at hf
      cases hf
    | some k =>
      have hrest := ih (fun g hg => h g (List.mem_cons_of_mem f hg))
      simp [decodeAll, hd, hrest, List.filterMap_cons]

/-- C3: a processed change to the authorized-peers file replaces the
in-memory set by exactly the decoded keys of the current non-comment,
non-blank lines when every key decodes, and leaves the prior set untouched
when any key fails to decode. -/
theorem C3_watch_update (decode : Str → Option Key) (old : List Key)
    (buf : Str) :
    ((∀ f ∈ keyFields buf, (decode f).isSome) →
      watchUpdate decode old buf = (keyFields buf).filterMap decode) ∧
    ((∃ f ∈ keyFields buf, decode f = none) →
      watchUpdate decode old buf = old) := by
  constructor
  · intro hall
    unfold watchUpdate readAuthorizedPeersBuf
    rw [decodeAll_eq_filterMap decode _ hall]
  · intro hex
    unfold watchUpdate readAuthorizedPeersBuf
    rw [(decodeAll_eq_none_iff decode _).2 hex]

/-- Example decoder standing in for HypercoreId.decode: accepts just the
keys "aa" and "bb". -/
def decExample : Str → Option Key :=
  fun s =>
    if s = "aa".toList then some [1]
    else if s = "bb".toList then some [2]
    else none

/-- A well-formed authorized-peers file: a comment, a blank line, two peers. -/
def bufExample : Str := "# comment\naa alice\n\nbb bob\n".toList

/-- An authorized-peers file whose second key does not decode. -/
def bufBadExample : Str := "aa alice\nzz mallory\n".toList

/-- Witness for C3 at a concrete good buffer and a concrete bad buffer. -/
theorem C3_watch_update_witness :
    watchUpdate decExample [[9]] bufExample =
      (keyFields bufExample).filterMap decExample ∧
    watchUpdate decExample [[9]] bufBadExample = [[9]] :=
  ⟨(C3_watch_update decExample [[9]] bufExample).1 (by decide),
   (C3_watch_update decExample [[9]] bufBadExample).2 (by decide)⟩

/-- C6: at startup a missing store is created with the header comment and
parses to the empty set; an existing store whose lines all decode yields
the full decoded set, while any malformed key is a fatal parse error for
the whole file and the filesystem is left as it was. -/
theorem C6_startup_read (decode : Str → Option Key) (fs : FS) (fpath : Str) :
    (fs fpath = none →
      (readAuthorizedPeersFile decode fs fpath).1 fpath = some headerLine ∧
      (readAuthorizedPeersFile decode fs fpath).2 = some []) ∧
    (∀ content, fs fpath = some content →
      (readAuthorizedPeersFile decode fs fpath).1 = fs ∧
      ((∃ f ∈ keyFields content, decode f = none) →
        (readAuthorizedPeersFile decode fs fpath).2 = none) ∧
      ((∀ f ∈ keyFields content, (decode f).isSome) →
        (readAuthorizedPeersFile decode fs fpath).2 =
          some ((keyFields content).filterMap decode))) := by
  constructor
  · intro h0
    have hens : ensureFirewallFile fs fpath =
        fun p => if p = fpath then some headerLine else fs p := by
      unfold ensureFirewallFile
      rw [h0]
    have hread : ensureFirewallFile fs fpath fpath = some headerLine := by
      rw [hens]
      simp
    constructor
    · exact hread
    · show (match ensureFirewallFile fs fpath fpath with
            | none => some []
            | some content => decodeAll decode (keyFields content)) = some []
      rw [hread]
      have hk : keyFields headerLine = [] := by decide
      show decodeAll decode (keyFields headerLine) = some []
      rw [hk]
      rfl
  · intro content hc
    have hens : ensureFirewallFile fs fpath = fs := by
      unfold ensureFirewallFile
      rw [hc]
    have hread : ensureFirewallFile fs fpath fpath = some content := by
      rw [hens, hc]
    refine ⟨hens, ?_, ?_⟩
    · intro hex
      show (match ensureFirewallFile fs fpath fpath with
            | none => some []
            | some c => decodeAll decode (keyFields c)) = none
      rw [hread]
      exact (decodeAll_eq_none_iff decode _).2 hex
    · intro hall
      show (match ensureFirewallFile fs fpath fpath with
            | none => some []
            | some c => decodeAll decode (keyFields c)) =
          some ((keyFields content).filterMap decode)
      rw [hread]
      exact decodeAll_eq_filterMap decode _ hall

/-- An initially empty filesystem, for witnesses. -/
def fsEmpty : FS := fun _ => none

/-- The firewall path used in witnesses. -/
def fwPath : Str := "authorized_peers".toList

/-- Witness for C6: reading against an absent store creates the header file
and yields zero peers; a store with a malformed key is a fatal error. -/
theorem C6_startup_read_witness :
    ((readAuthorizedPeersFile decExample fsEmpty fwPath).1 fwPath =
        some headerLine ∧
      (readAuthorizedPeersFile decExample fsEmpty fwPath).2 = some []) ∧
    (readAuthorizedPeersFile decExample
        (fun p => if p = fwPath then some bufBadExample else none) fwPath).2 =
      none :=
  ⟨(C6_startup_read decExample fsEmpty fwPath).1 rfl,
   ((C6_startup_read decExample
        (fun p => if p = fwPath then some bufBadExample else none) fwPath).2
      bufBadExample (by simp)).2.1 (by decide)⟩

/-- C10: with the disable-firewall flag the setup block returns the
allow-all sentinel without reading or creating the store, installs no
watcher and registers no unwatch action; the startup registry holds no
firewall-unwatch action, and the sentinel allows every peer. -/
theorem C10_disable_firewall_frame (decode : Str → Option Key) (fs : FS)
    (fpath : Str) :
    setupFirewall decode true fs fpath =
      some { allowed := .all, fs := fs, storeRead := false,
             watcherInstalled := false, unwatchRegistered := false } ∧
    ((startupRegs true).all (fun r => !(r.id == GId.unwatchFirewall))) = true ∧
    (∀ encode p, (onFirewall encode .all p).1 = false) :=
  ⟨rfl, rfl, fun _ _ => rfl⟩

/-- Membership in an if-guarded singleton list. -/
theorem mem_ite_singleton {α : Type} (c : Prop) [Decidable c] (x a : α) :
    (a ∈ (if c then [x] else [])) ↔ c ∧ a = x := by
  by_cases hc : c <;> simp [hc]

/-- Characterization of the wire names bound on the multiplexer: each of
the four bindings is present exactly when its configuration name is in the
enabled list. -/
theorem mem_boundBindings (protocols : List Str) (w : Str) :
    w ∈ boundBindings protocols ↔
      ("shell".toList ∈ protocols ∧ w = "hypershell".toList) ∨
      ("upload".toList ∈ protocols ∧ w = "hypershell-upload".toList) ∨
      ("download".toList ∈ protocols ∧ w = "hypershell-download".toList) ∨
      ("tunnel".toList ∈ protocols ∧ w = "hypershell-tunnel-local".toList) := by
  simp only [boundBindings, List.mem_append, mem_ite_singleton, or_assoc]

/-- C2: a protocol name in the default set that is not in the
enabled-protocol configuration is never bound on the multiplexer and no
handler for it is ever instantiated, whatever the remote peer attempts to
negotiate. -/
theorem C2_disabled_protocol_never_bound (protocols attempted : List Str)
    (name : Str) (hmem : name ∈ PROTOCOLS) (hdis : name ∉ protocols) :
    muxName name ∉ boundBindings protocols ∧
    muxName name ∉ instantiatedHandlers protocols attempted := by
  have hnb : muxName name ∉ boundBindings protocols := by
    have hcases : name = "shell".toList ∨ name = "upload".toList ∨
        name = "download".toList ∨ name = "tunnel".toList := by
      simpa [PROTOCOLS] using hmem
    rcases hcases with h | h | h | h
    · subst h
      rw [show muxName "shell".toList = "hypershell".toList from by decide,
        mem_boundBindings]
      rintro (⟨hp, _⟩ | ⟨_, he⟩ | ⟨_, he⟩ | ⟨_, he⟩)
      · exact hdis hp
      · exact absurd he (by decide)
      · exact absurd he (by decide)
      · exact absurd he (by decide)
    · subst h
      rw [show muxName "upload".toList = "hypershell-upload".toList from by
        decide, mem_boundBindings]
      rintro (⟨_, he⟩ | ⟨hp, _⟩ | ⟨_, he⟩ | ⟨_, he⟩)
      · exact absurd he (by decide)
      · exact hdis hp
      · exact absurd he (by decide)
      · exact absurd he (by decide)
    · subst h
      rw [show muxName "download".toList = "hypershell-download".toList from by
        decide, mem_boundBindings]
      rintro (⟨_, he⟩ | ⟨_, he⟩ | ⟨hp, _⟩ | ⟨_, he⟩)
      · exact absurd he (by decide)
      · exact absurd he (by decide)
      · exact hdis hp
      · exact absurd he (by decide)
    · subst h
      rw [show muxName "tunnel".toList = "hypershell-tunnel-local".toList from
        by decide, mem_boundBindings]
      rintro (⟨_, he⟩ | ⟨_, he⟩ | ⟨_, he⟩ | ⟨hp, _⟩)
      · exact absurd he (by decide)
      · exact absurd he (by decide)
      · exact absurd he (by decide)
      · exact hdis hp
  refine ⟨hnb, fun hin => ?_⟩
  have hpred := List.of_mem_filter hin
  exact hnb (of_decide_eq_true hpred)

/-- Witness for C2: with only upload enabled, the shell wire name is not
bound and no shell handler is instantiated even though the peer attempts
both wire names. -/
theorem C2_disabled_protocol_never_bound_witness :
    muxName "shell".toList ∉ boundBindings ["upload".toList] ∧
    muxName "shell".toList ∉
      instantiatedHandlers ["upload".toList]
        ["hypershell".toList, "hypershell-upload".toList] :=
  C2_disabled_protocol_never_bound ["upload".toList]
    ["hypershell".toList, "hypershell-upload".toList] "shell".toList
    (by decide) (by decide)

/-- C9 counterexample: a run whose served protocol list is exactly the
full default set {shell, upload, download, tunnel}, supplied explicitly
via --protocol, prints the restricted-mode notice, not the connection
command — the banner follows reference identity with the default array,
not the served set. -/
theorem C9_counterexample :
    selectedProtocols (some PROTOCOLS) = PROTOCOLS ∧
    listenBanner (some PROTOCOLS) "abc".toList ≠
      listenBanner none "abc".toList ∧
    (listenBanner (some PROTOCOLS) "abc".toList).headD [] =
      "Running server with restricted protocols".toList := by
  refine ⟨rfl, ?_, rfl⟩
  decide

/-- C9 (amended): the encoded identity with the ready-to-use connection
command is printed exactly when no protocol list was supplied on the
command line (the source compares by JavaScript reference equality with
the default array); any explicitly supplied list — even one equal to the
full default set — prints the restricted-mode notice with the server key. -/
theorem C9_amended_banner (protocolOpt : Option (List Str)) (enc : Str) :
    (protocolOpt = none →
      listenBanner protocolOpt enc =
        ["To connect to this shell, on another computer run:".toList,
         "hypershell ".toList ++ enc]) ∧
    (∀ ps, protocolOpt = some ps →
      listenBanner protocolOpt enc =
        ["Running server with restricted protocols".toList,
         "Server key: ".toList ++ enc]) := by
  constructor
  · rintro rfl
    rfl
  · rintro ps rfl
    rfl

/-- Witness for the amended C9 at the explicitly supplied full default set. -/
theorem C9_amended_banner_witness :
    listenBanner (some PROTOCOLS) "abc".toList =
      ["Running server with restricted protocols".toList,
       "Server key: ".toList ++ "abc".toList] :=
  (C9_amended_banner (some PROTOCOLS) "abc".toList).2 PROTOCOLS rfl

/-- When two events are strictly ordered by a cut of the trace, every
occurrence of the first is at a smaller index than every occurrence of
the second. -/
theorem strictlyBefore_index {a b : GEvent} {tr : List GEvent}
    (h : strictlyBefore a b tr) (i j : Nat) (hi : i < tr.length)
    (hj : j < tr.length) (hia : tr[i] = a) (hjb : tr[j] = b) : i < j := by
  obtain ⟨pre, post, htr, hapre, hapost, hbpost, hbpre⟩ := h
  subst htr
  have hilen : i < pre.length := by
    by_contra hcon
    push_neg at hcon
    have hidx : i - pre.length < post.length := by
      rw [List.length_append] at hi
      omega
    have heq : (pre ++ post)[i] = post[i - pre.length] :=
      List.getElem_append_right hcon
    have : a ∈ post := by
      rw [← hia, heq]
      exact post.getElem_mem hidx
    exact hapost this
  have hjlen : pre.length ≤ j := by
    by_contra hcon
    push_neg at hcon
    have heq : (pre ++ post)[j] = pre[j] :=
      List.getElem_append_left hcon
    have : b ∈ pre := by
      rw [← hjb, heq]
      exact pre.getElem_mem hcon
    exact hbpre this
  omega

/-- Socket registrations all sit in tier 1, so the tier-1 filter keeps
them all. -/
theorem filter_socketRegs_one (n : Nat) :
    (socketRegs n).filter (fun r => r.priority == 1) = socketRegs n :=
  List.filter_eq_self.2 (by
    intro r hr
    rcases List.mem_map.1 hr with ⟨i, _, rfl⟩
    rfl)

/-- Socket registrations sit only in tier 1. -/
theorem filter_socketRegs_ne (n : Nat) (p : Nat) (hp : p ≠ 1) :
    (socketRegs n).filter (fun r => r.priority == p) = [] := by
  rw [List.filter_eq_nil_iff]
  intro r hr
  rcases List.mem_map.1 hr with ⟨i, _, rfl⟩
  simp only [beq_iff_eq]
  exact fun e => hp e.symm

/-- Priorities of the socket registrations: a block of ones. -/
theorem socketRegs_priorities (n : Nat) :
    (socketRegs n).map (fun r => r.priority) = List.replicate n 1 := by
  unfold socketRegs
  rw [List.map_map]
  show (List.range n).map (fun _ => 1) = List.replicate n 1
  rw [List.map_const']
  rw [List.length_range]

/-- Deduplication collapses a nonempty block of ones. -/
theorem dedup_replicate_one (m : Nat) :
    (List.replicate (m + 1) (1 : Nat)).dedup = [1] := by
  induction m with
  | zero => rfl
  | succ k ih =>
    rw [show List.replicate (k + 2) (1 : Nat) = 1 :: List.replicate (k + 1) 1
        from rfl,
      List.dedup_cons_of_mem (List.mem_replicate.2 ⟨Nat.succ_ne_zero k, rfl⟩),
      ih]

/-- With at least one live connection the tiers to run are 1, 2, 3 in
ascending order. -/
theorem sortedPris_succ (disable : Bool) (m : Nat) :
    List.insertionSort (· ≤ ·)
      ((serverRegs disable (m + 1)).map (fun r => r.priority)).dedup =
      [1, 2, 3] := by
  have hmap : (serverRegs disable (m + 1)).map (fun r => r.priority) =
      (if disable then ([] : List Nat) else [3]) ++
        3 :: 2 :: List.replicate (m + 1) 1 := by
    cases disable <;>
      simp [serverRegs, startupRegs, socketRegs_priorities]
  rw [hmap]
  have h1 : (List.replicate (m + 1) (1 : Nat)).dedup = [1] :=
    dedup_replicate_one m
  have h2 : ((2 : Nat) :: List.replicate (m + 1) 1).dedup = [2, 1] := by
    rw [List.dedup_cons_of_not_mem (by simp [List.mem_replicate]), h1]
  have h3 : ((3 : Nat) :: 2 :: List.replicate (m + 1) 1).dedup = [3, 2, 1] := by
    rw [List.dedup_cons_of_not_mem (by simp [List.mem_replicate]), h2]
  cases disable
  · show List.insertionSort (· ≤ ·)
      ((3 : Nat) :: 3 :: 2 :: List.replicate (m + 1) 1).dedup = [1, 2, 3]
    rw [List.dedup_cons_of_mem (List.mem_cons_self 3 _), h3]
    decide
  · show List.insertionSort (· ≤ ·)
      ((3 : Nat) :: 2 :: List.replicate (m + 1) 1).dedup = [1, 2, 3]
    rw [h3]
    decide

/-- Start then completion events of the socket teardown tier. -/
def socketEvents (n : Nat) : List GEvent :=
  ((List.range n).map (fun i => GEvent.start (GId.socket i))) ++
  ((List.range n).map (fun i => GEvent.finish (GId.socket i)))

/-- Tier-2 and tier-3 tail of the server's shutdown trace. -/
def tailEvents (disable : Bool) : List GEvent :=
  [GEvent.start .serverClose, GEvent.finish .serverClose] ++
  (if disable then
    [GEvent.start .nodeDestroy, GEvent.finish .nodeDestroy]
   else
    [GEvent.start .unwatchFirewall, GEvent.start .nodeDestroy,
     GEvent.finish .unwatchFirewall, GEvent.finish .nodeDestroy])

/-- Shape of the full shutdown trace of the server's registry: the socket
tier runs first, then the listener tier, then the transport tier. -/
theorem goodbyeTrace_serverRegs (disable : Bool) (n : Nat) :
    goodbyeTrace (serverRegs disable n) =
      socketEvents n ++ tailEvents disable := by
  cases n with
  | zero => cases disable <;> decide
  | succ m =>
    have hf1 : (serverRegs disable (m + 1)).filter
        (fun r => r.priority == 1) = socketRegs (m + 1) := by
      unfold serverRegs
      rw [List.filter_append, filter_socketRegs_one]
      cases disable <;> simp [startupRegs]
    have hf2 : (serverRegs disable (m + 1)).filter
        (fun r => r.priority == 2) =
        [{ id := GId.serverClose, priority := 2 }] := by
      unfold serverRegs
      rw [List.filter_append, filter_socketRegs_ne (m + 1) 2 (by decide)]
      cases disable <;> simp [startupRegs]
    have hf3 : (serverRegs disable (m + 1)).filter
        (fun r => r.priority == 3) =
        (if disable then [] else [{ id := GId.unwatchFirewall, priority := 3 }]) ++
          [{ id := GId.nodeDestroy, priority := 3 }] := by
      unfold serverRegs
      rw [List.filter_append, filter_socketRegs_ne (m + 1) 3 (by decide)]
      cases disable <;> simp [startupRegs]
    rw [goodbyeTrace, sortedPris_succ]
    simp only [List.flatMap_cons, List.flatMap_nil, List.append_nil, tierEvents]
    rw [hf1, hf2, hf3]
    cases disable <;>
      simp only [socketRegs, socketEvents, tailEvents, List.map_map,
        List.append_assoc, List.cons_append, List.nil_append, if_true,
        if_false, List.singleton_append] <;>
      rfl

/-- C4: on shutdown the tiers run in ascending order with each tier
completing fully before the next begins: every live connection's
socket-end-and-wait action completes before the server close starts, and
the server close completes before the node destroy starts. -/
theorem C4_shutdown_tier_order (disable : Bool) (n : Nat) :
    (∀ i < n, strictlyBefore (GEvent.finish (GId.socket i))
        (GEvent.start GId.serverClose) (goodbyeTrace (serverRegs disable n))) ∧
    strictlyBefore (GEvent.finish GId.serverClose)
        (GEvent.start GId.nodeDestroy) (goodbyeTrace (serverRegs disable n)) := by
  rw [goodbyeTrace_serverRegs]
  constructor
  · intro i hi
    refine ⟨socketEvents n, tailEvents disable, rfl, ?_, ?_, ?_, ?_⟩
    · exact List.mem_append_right _
        (List.mem_map.2 ⟨i, List.mem_range.2 hi, rfl⟩)
    · cases disable <;> simp [tailEvents]
    · cases disable <;> simp [tailEvents]
    · simp [socketEvents]
  · refine ⟨socketEvents n ++
      [GEvent.start GId.serverClose, GEvent.finish GId.serverClose],
      (if disable then
        [GEvent.start .nodeDestroy, GEvent.finish .nodeDestroy]
       else
        [GEvent.start .unwatchFirewall, GEvent.start .nodeDestroy,
         GEvent.finish .unwatchFirewall, GEvent.finish .nodeDestroy]),
      ?_, ?_, ?_, ?_, ?_⟩
    · rw [tailEvents, List.append_assoc]
    · exact List.mem_append_right _ (by simp)
    · cases disable <;> simp
    · cases disable <;> simp
    · simp [socketEvents]

/-- Witness for C4 with one live connection and the firewall enabled. -/
theorem C4_shutdown_tier_order_witness :
    strictlyBefore (GEvent.finish (GId.socket 0)) (GEvent.start GId.serverClose)
      (goodbyeTrace (serverRegs false 1)) ∧
    strictlyBefore (GEvent.finish GId.serverClose) (GEvent.start GId.nodeDestroy)
      (goodbyeTrace (serverRegs false 1)) :=
  ⟨(C4_shutdown_tier_order false 1).1 0 (by decide),
   (C4_shutdown_tier_order false 1).2⟩

/-- Every event of the shutdown trace comes from a current registration. -/
theorem mem_goodbyeTrace (regs : List GReg) (e : GEvent)
    (he : e ∈ goodbyeTrace regs) :
    ∃ r ∈ regs, e = GEvent.start r.id ∨ e = GEvent.finish r.id := by
  rcases List.mem_flatMap.1 he with ⟨p, _, hp⟩
  rcases List.mem_append.1 hp with h | h
  · rcases List.mem_map.1 h with ⟨r, hr, rfl⟩
    exact ⟨r, (List.mem_filter.1 hr).1, Or.inl rfl⟩
  · rcases List.mem_map.1 h with ⟨r, hr, rfl⟩
    exact ⟨r, (List.mem_filter.1 hr).1, Or.inr rfl⟩

/-- Once no registration for a socket exists, later lifecycle events that
do not re-accept that socket index never reintroduce one. -/
theorem socket_not_in_regsAfter (i : Nat) (es : List LEvent) :
    LEvent.accept i ∉ es →
    ∀ regs : List GReg, (∀ r ∈ regs, r.id ≠ GId.socket i) →
      ∀ r ∈ regsAfter regs es, r.id ≠ GId.socket i := by
  induction es with
  | nil =>
    intro _ regs hreg
    exact hreg
  | cons e rest ih =>
    intro hes regs hreg
    have hrest : LEvent.accept i ∉ rest :=
      fun m => hes (List.mem_cons_of_mem e m)
    have hnew : ∀ r ∈ lifecycleStep regs e, r.id ≠ GId.socket i := by
      cases e with
      | accept j =>
        have hji : j ≠ i := fun hj => hes (hj ▸ List.mem_cons_self _ _)
        intro r hr
        rcases List.mem_append.1 hr with h | h
        · exact hreg r h
        · have hr2 : r = { id := GId.socket j, priority := 1 } :=
            List.mem_singleton.1 h
          rw [hr2]
          intro heq
          exact hji (GId.socket.inj heq)
      | socketClosed j =>
        intro r hr
        by_cases hji : j = i
        · subst hji
          have hpred := List.of_mem_filter hr
          intro heq
          rw [heq] at hpred
          simp at hpred
        · exact hreg r (List.mem_of_mem_filter hr)
    exact ih hrest (lifecycleStep regs e) hnew

/-- C5: a socket that fully closes before shutdown is deregistered at the
moment of close: after its close event (and with no later accept reusing
its index) no registration for it remains, and the shutdown trace contains
no start and no completion of its teardown action. -/
theorem C5_closed_socket_unregistered (i : Nat) (init : List GReg)
    (es1 es2 : List LEvent) (hes2 : LEvent.accept i ∉ es2) :
    (∀ r ∈ regsAfter init (es1 ++ LEvent.socketClosed i :: es2),
        r.id ≠ GId.socket i) ∧
    GEvent.start (GId.socket i) ∉
      goodbyeTrace (regsAfter init (es1 ++ LEvent.socketClosed i :: es2)) ∧
    GEvent.finish (GId.socket i) ∉
      goodbyeTrace (regsAfter init (es1 ++ LEvent.socketClosed i :: es2)) := by
  have hbase : ∀ r ∈ lifecycleStep (regsAfter init es1)
      (LEvent.socketClosed i), r.id ≠ GId.socket i := by
    intro r hr
    have hpred := List.of_mem_filter hr
    intro heq
    rw [heq] at hpred
    simp at hpred
  have hsplit : regsAfter init (es1 ++ LEvent.socketClosed i :: es2) =
      regsAfter (lifecycleStep (regsAfter init es1)
        (LEvent.socketClosed i)) es2 := by
    unfold regsAfter
    rw [List.foldl_append]
    rfl
  have hmain : ∀ r ∈ regsAfter init (es1 ++ LEvent.socketClosed i :: es2),
      r.id ≠ GId.socket i := by
    rw [hsplit]
    exact socket_not_in_regsAfter i es2 hes2 _ hbase
  refine ⟨hmain, ?_, ?_⟩
  · intro hin
    rcases mem_goodbyeTrace _ _ hin with ⟨r, hr, h | h⟩
    · exact hmain r hr (GEvent.start.inj h).symm
    · exact GEvent.noConfusion h
  · intro hin
    rcases mem_goodbyeTrace _ _ hin with ⟨r, hr, h | h⟩
    · exact GEvent.noConfusion h
    · exact hmain r hr (GEvent.finish.inj h).symm

/-- Witness for C5: socket 0 is accepted and closes, another connection is
accepted afterwards; no teardown event for socket 0 appears at shutdown. -/
theorem C5_closed_socket_unregistered_witness :
    GEvent.start (GId.socket 0) ∉
      goodbyeTrace (regsAfter []
        ([LEvent.accept 0] ++ LEvent.socketClosed 0 :: [LEvent.accept 1])) ∧
    GEvent.finish (GId.socket 0) ∉
      goodbyeTrace (regsAfter []
        ([LEvent.accept 0] ++ LEvent.socketClosed 0 :: [LEvent.accept 1])) :=
  ⟨(C5_closed_socket_unregistered 0 [] [LEvent.accept 0] [LEvent.accept 1]
      (by decide)).2.1,
   (C5_closed_socket_unregistered 0 [] [LEvent.accept 0] [LEvent.accept 1]
      (by decide)).2.2⟩
